import Mathlib

/-!
Shallow embedding of `src/Usermods/sporkus/probe_accuracy_test_suite.py`
(the Klicky-Probe automated probe-accuracy test suite).

Python floats are modelled as exact rationals (ℚ); all concrete inputs used
in counterexamples and witnesses are chosen so that the corresponding float
computations are exact.  Log entries from moonraker's gcode store are modelled
as timestamped messages; the store returns its most recent `count` entries in
chronological order.
-/

namespace ProbeAccuracy

/-- One entry of the moonraker gcode response store: `{"time": ..., "message": ...}`. -/
structure Entry where
  time : ℚ
  message : String
  deriving DecidableEq, Repr

/-- The gcode store holds entries in chronological order; a query with
`count=n` returns the `n` most recent entries (the last `n`, still in
chronological order).  Models `get_gcode_response(count)` (line 293). -/
def get_gcode_response (count : Nat) (log : List Entry) : List Entry :=
  log.drop (log.length - count)

/-- Character class of the regex `[\d.]+` used at lines 273-274 and 316:
a decimal digit or a dot.  No sign character is in the class. -/
def isNumChar (c : Char) : Bool :=
  c.isDigit || c == '.'

/-- One step (right to left) of collecting the maximal `[\d.]+` runs: the
boolean records whether the head run starts at the position right after the
current character. -/
def findNumsStep (c : Char) (acc : List (List Char) × Bool) : List (List Char) × Bool :=
  if isNumChar c then
    match acc with
    | (r :: rs, true) => ((c :: r) :: rs, true)
    | (runs, _) => ([c] :: runs, true)
  else (acc.1, false)

/-- `re.findall(r"[\d.]+", s)` on the character list of `s`: the maximal
runs of characters from the class `[\d.]`, left to right. -/
def findNumsCh (l : List Char) : List (List Char) :=
  (l.foldr findNumsStep ([], false)).1

/-- `re.findall(r"[\d.]+", s)` as a list of strings. -/
def findNums (s : String) : List String :=
  (findNumsCh s.toList).map List.asString

/-- Value of a digit string read left to right (the integer part of a
Python float literal). -/
def digitsToNat (l : List Char) : Nat :=
  l.foldl (fun n c => 10 * n + (c.toNat - '0'.toNat)) 0

/-- Python's `float()` applied to a token produced by `re.findall(r"[\d.]+", ...)`:
such a token contains only digits and dots.  `float` accepts `"123"`, `"1.5"`,
`".5"` and `"5."`, and raises `ValueError` (modelled as `none`) on a token with
two or more dots or on a bare `"."`.  The resulting value is
`intPart + fracPart / 10^fracLen`. -/
def pyFloat (s : String) : Option ℚ :=
  if s.toList.all isNumChar then
    match s.toList.splitOn '.' with
    | [w] => if w.isEmpty then none else some (digitsToNat w : ℚ)
    | [w, f] =>
      if w.isEmpty && f.isEmpty then none
      else some ((digitsToNat w : ℚ) + (digitsToNat f : ℚ) / (10 : ℚ) ^ f.length)
    | _ => none
  else none

/-- `[float(k) for k in coor]`: the first `ValueError` aborts the
comprehension. -/
def pyFloats : List String → Option (List ℚ)
  | [] => some []
  | t :: ts =>
    match pyFloat t, pyFloats ts with
    | some q, some qs => some (q :: qs)
    | _, _ => none

/-- One parsed measurement line of `collect_data` (lines 316-317):
`coor = re.findall(r"[\d.]+", msg); x, y, z = [float(k) for k in coor]`.
`none` models the `ValueError` raised when the line does not yield exactly
three parseable tokens. -/
def parseLine (msg : String) : Option (ℚ × ℚ × ℚ) :=
  match pyFloats (findNums msg) with
  | some [x, y, z] => some (x, y, z)
  | _ => none

/-- One sample row built by `collect_data` (line 318):
`{"test": test, "index": i, "x": x, "y": y, "z": z}`. -/
structure Sample where
  test : String
  index : Nat
  x : ℚ
  y : ℚ
  z : ℚ
  deriving DecidableEq, Repr

/-- Outcome of `collect_data`: a normal return of the sample list, the
`sys.exit(1)` taken when no measurements were collected (line 323), or a
propagating `ValueError` from `float()`/tuple unpacking. -/
inductive CollectResult where
  | ok (samples : List Sample)
  | exitNoSamples
  | valueError
  deriving DecidableEq, Repr

/-- Python's `str.startswith`, modelled on character lists. -/
def startsWith (s pre : String) : Bool :=
  pre.toList.isPrefixOf s.toList

/-- The measurement lines of a burst: entries emitted strictly after
`startTime` whose message starts with `"// probe at"` (lines 304, 307). -/
def matchingMsgs (startTime : ℚ) (raw : List Entry) : List String :=
  ((raw.filter (fun e => startTime < e.time)).filter
      (fun e => startsWith e.message "// probe at")).map Entry.message

/-- Number of raw matching measurement lines of a burst. -/
def rawMatchingLines (startTime : ℚ) (raw : List Entry) : Nat :=
  (matchingMsgs startTime raw).length

/-- Parsing of all measurement lines of the burst; the first `ValueError`
aborts the whole call (the loop at lines 315-318 appends nothing after a
raise). -/
def parseAll : List String → Option (List (ℚ × ℚ × ℚ))
  | [] => some []
  | m :: ms =>
    match parseLine m, parseAll ms with
    | some c, some cs => some (c :: cs)
    | _, _ => none

/-- `collect_data` (lines 299-327), starting after the `PROBE_ACCURACY`
command was sent: `raw` is the (up to 1000 entry) response of the gcode store
and `startTime` the baseline timestamp recorded before the command.
Filters to entries newer than the baseline, keeps `"// probe at"` messages,
parses each into a row with `index` equal to its position among the matching
lines, exits when the row list is empty, and otherwise pops the first row
when `discard_first_sample` is set.  (Error messages starting with `"!!"`
are only printed, so they do not appear in the result.)

`mkData` is the row-building loop (lines 314-318): row `i` carries `index = i`,
its position among the matching lines, assigned before any discard. -/
def mkData (test : String) (coords : List (ℚ × ℚ × ℚ)) : List Sample :=
  coords.enum.map (fun p => Sample.mk test p.1 p.2.1 p.2.2.1 p.2.2.2)

def collect_data (startTime : ℚ) (raw : List Entry)
    (discard_first_sample : Bool) (test : String) : CollectResult :=
  match parseAll (matchingMsgs startTime raw) with
  | none => .valueError
  | some coords =>
    if (mkData test coords).length = 0 then .exitNoSamples
    else if discard_first_sample then .ok ((mkData test coords).drop 1)
    else .ok (mkData test coords)

/-- The sample list of a `collect_data` result (empty on the exit and error
outcomes); used to state concrete facts about returned bursts. -/
def CollectResult.samplesD : CollectResult → List Sample
  | .ok samples => samples
  | _ => []

/-- The baseline timestamp of `collect_data` (line 301):
`get_gcode_response(count=1)[0]["time"]`.  `none` models the `IndexError`
raised on an empty store. -/
def baselineTime (logBefore : List Entry) : Option ℚ :=
  (get_gcode_response 1 logBefore).head?.map Entry.time

/-- The correlation step of `collect_data` (lines 303-304): read up to the
1000 most recent entries of the store and keep those emitted strictly after
the baseline, in store order. -/
def correlate (startTime : ℚ) (logAfter : List Entry) : List Entry :=
  (get_gcode_response 1000 logAfter).filter (fun e => startTime < e.time)

/-- `xmin, ymin = re.findall(r"[\d.]+", s)` (lines 273-274): the unpacking
succeeds only with exactly two tokens; each is then converted by `float`
(lines 276-279).  `none` models the `ValueError` on any other shape. -/
def parsePair (s : String) : Option (ℚ × ℚ) :=
  match findNums s with
  | [a, b] =>
    match pyFloat a, pyFloat b with
    | some qa, some qb => some (qa, qb)
    | _, _ => none
  | _ => none

/-- `get_bed_corners` (lines 268-281).  `x_offset` and `y_offset` are the
probe offsets from the config (already through `float`); the mesh bounds are
the raw config strings.  Returns
`[(xmin, ymax), (xmax, ymax), (xmin, ymin), (xmax, ymin)]` after shifting
each parsed bound by the corresponding offset. -/
def get_bed_corners (mesh_min mesh_max : String) (x_offset y_offset : ℚ) :
    Option (List (ℚ × ℚ)) :=
  match parsePair mesh_min, parsePair mesh_max with
  | some (xmin0, ymin0), some (xmax0, ymax0) =>
    some [(xmin0 - x_offset, ymax0 - y_offset), (xmax0 - x_offset, ymax0 - y_offset),
          (xmin0 - x_offset, ymin0 - y_offset), (xmax0 - x_offset, ymin0 - y_offset)]
  | _, _ => none

/-- `random_loc` (lines 90-97): `np.random.random()` draws `r1`, `r2`
uniformly from `[0, 1)`; the code computes
`x = r1 * (xmax - xmin - margin) + margin` and likewise for `y`.  (Note the
drawn coordinate never involves `xmin` other than through the width.) -/
def random_loc (r1 r2 margin xmin xmax ymin ymax : ℚ) : ℚ × ℚ :=
  (r1 * (xmax - xmin - margin) + margin, r2 * (ymax - ymin - margin) + margin)

/-- `pd.concat(dfs, axis=0)` without `ignore_index`: every row keeps its
frame's default `RangeIndex`, i.e. its position within its own table. -/
def concatKeepIndex (tables : List (List Sample)) : List (Nat × Sample) :=
  (tables.map List.enum).flatten

/-- `sort_index()`: a sort of the rows by the retained index value, modelled
by the stable `insertionSort`.  The statements below depend only on
comparisons between distinct index values, so the tie-breaking choice of the
pandas sort is immaterial to them. -/
def sortIndex (l : List (Nat × Sample)) : List (Nat × Sample) :=
  l.insertionSort (fun a b => a.1 ≤ b.1)

/-- Line 119, `test_repeatability`: `pd.concat(dfs, axis=0).sort_index()`. -/
def mergeRepeatability (tables : List (List Sample)) : List Sample :=
  (sortIndex (concatKeepIndex tables)).map Prod.snd

/-- Line 62, `test_routine`:
`pd.concat(dfs, axis=0, ignore_index=True).sort_index()` — the rows are
re-indexed `0..n-1` across the concatenation before sorting. -/
def mergeRoutine (tables : List (List Sample)) : List Sample :=
  (sortIndex (tables.flatten).enum).map Prod.snd

/-- Line 157, `test_corners`: `pd.concat(dfs, axis=0)` with no sort. -/
def mergeCorners (tables : List (List Sample)) : List Sample :=
  tables.flatten

/-- Exceptions relevant to `main` (lines 32-47): `KeyboardInterrupt`,
`SystemExit` as raised by `sys.exit(code)` (line 323, the `NoSamplesError`
exit), and a propagating error of the HTTP transport (the spec's
`TransportError`). -/
inductive PyExc where
  | keyboardInterrupt
  | systemExit (code : Nat)
  | transportError
  deriving DecidableEq, Repr

/-- A run of `main`'s `try` body (lines 36-44), abstracted to the gcode
commands it sent and the exception it raised, if any. -/
structure BodyRun where
  sent : List String
  exc : Option PyExc
  deriving DecidableEq, Repr

/-- `main` (lines 32-47): the `try` block catches only `KeyboardInterrupt`
(lines 45-46) and falls through to line 47, which sends
`DOCK_PROBE_UNLOCK`.  Any other exception — the `SystemExit` of the
no-samples path or a transport error — propagates past the `except` clause
and line 47 never runs.  Result: the commands sent and the exception leaving
`main`, if any. -/
def mainRun (body : BodyRun) : List String × Option PyExc :=
  match body.exc with
  | none => (body.sent ++ ["DOCK_PROBE_UNLOCK"], none)
  | some .keyboardInterrupt => (body.sent ++ ["DOCK_PROBE_UNLOCK"], none)
  | some e => (body.sent, some e)

/-- Process exit status for the exception leaving `main`: `sys.exit(c)`
exits with status `c`, any other uncaught exception exits non-zero (CPython
uses 1), a normal return exits 0. -/
def exitStatus : Option PyExc → Nat
  | none => 0
  | some (.systemExit c) => c
  | some _ => 1

/-- Observable actions of the test orchestrator: a raw gcode command, a
`G0` move (`move_to_loc`, lines 284-290), or one `PROBE_ACCURACY` burst
acquisition with its requested sample count and test label
(`test_probe` + `collect_data`). -/
inductive Ev where
  | gcode (cmd : String)
  | moveTo (x y : ℚ)
  | burst (samples : Nat) (testname : String)
  deriving DecidableEq, Repr

/-- `f"{n:02d}"` for the trial numbers used in labels. -/
def pad2 (n : Nat) : String :=
  if n < 10 then "0" ++ toString n else toString n

/-- The label `f"{i+1:02d}: center {probe_count}samples"` of trial `i`
(line 112). -/
def repeatLabel (i probe_count : Nat) : String :=
  pad2 (i + 1) ++ ": center " ++ toString probe_count ++ "samples"

/-- `test_probe` (lines 330-337) as its action sequence: move to `loc`
(bed center when `loc` is `None`), then acquire one burst of `probe_count`
requested samples under `testname`. -/
def test_probeEv (probe_count : Nat) (loc : Option (ℚ × ℚ)) (center : ℚ × ℚ)
    (testname : String) : List Ev :=
  match loc with
  | some xy => [.moveTo xy.1 xy.2, .burst probe_count testname]
  | none => [.moveTo center.1 center.2, .burst probe_count testname]

/-- One iteration of the `test_repeatability` loop (lines 107-114): move to
a fresh random location, move back to bed center, send the `M117` status,
then `test_probe` at the default (center) location.  `rand i` is the value
`random_loc()` returns in iteration `i`. -/
def repeatTrialEv (i test_count probe_count : Nat) (rand : Nat → ℚ × ℚ)
    (center : ℚ × ℚ) : List Ev :=
  [.moveTo (rand i).1 (rand i).2, .moveTo center.1 center.2,
   .gcode ("M117 repeatability test " ++ toString (i + 1) ++ "/" ++ toString test_count)] ++
  test_probeEv probe_count none center (repeatLabel i probe_count)

/-- `test_repeatability` (lines 100-117) as its action sequence: optional
probe lock, the `test_count` loop iterations in order, optional dock. -/
def test_repeatabilityEv (test_count probe_count : Nat) (force_dock : Bool)
    (rand : Nat → ℚ × ℚ) (center : ℚ × ℚ) : List Ev :=
  (if force_dock then [] else [.gcode "ATTACH_PROBE_LOCK"]) ++
  ((List.range test_count).map
      (fun i => repeatTrialEv i test_count probe_count rand center)).flatten ++
  (if force_dock then [] else [.gcode "DOCK_PROBE_UNLOCK"])

/-- Whether an action is a burst acquisition. -/
def isBurst : Ev → Bool
  | .burst _ _ => true
  | _ => false

/-- One summary row of
`df.groupby("test")["z"].agg(["min","max","first","last","mean","std","count"])`
with the derived `range` and `drift` columns (lines 65-69).  `var` is the
square of the reported `std` (pandas `std` with its default `ddof=1`);
squaring keeps the model in ℚ, and `none` models the NaN produced for a
single-sample group. -/
structure SummaryRecord where
  min : ℚ
  max : ℚ
  first : ℚ
  last : ℚ
  mean : ℚ
  var : Option ℚ
  count : Nat
  range : ℚ
  drift : ℚ
  deriving DecidableEq, Repr, Inhabited

/-- The `z` values carrying test label `label`, in table row order (pandas
`groupby` preserves the relative order of the rows within each group). -/
def groupZ (label : String) (rows : List Sample) : List ℚ :=
  (rows.filter (fun s => s.test = label)).map Sample.z

/-- Sample variance with `ddof = 1` (the square of pandas `std`); `none`
models the NaN of a group with fewer than two values. -/
def sampleVar (zs : List ℚ) : Option ℚ :=
  if zs.length ≤ 1 then none
  else
    some ((zs.map (fun z => (z - zs.sum / (zs.length : ℚ)) ^ 2)).sum /
      ((zs.length : ℚ) - 1))

/-- The summary row of one label (lines 65-69): `none` when no row carries
the label (pandas produces no group). -/
def summarize (rows : List Sample) (label : String) : Option SummaryRecord :=
  match groupZ label rows with
  | [] => none
  | z :: zs =>
    some {
      min := zs.foldl Min.min z
      max := zs.foldl Max.max z
      first := z
      last := (z :: zs).getLast (List.cons_ne_nil z zs)
      mean := (z :: zs).sum / ((z :: zs).length : ℚ)
      var := sampleVar (z :: zs)
      count := (z :: zs).length
      range := zs.foldl Max.max z - zs.foldl Min.min z
      drift := (z :: zs).getLast (List.cons_ne_nil z zs) - z }

/-- The summary row of a label, with a default for the impossible empty
case; used to state concrete instances. -/
def summarizeD (rows : List Sample) (label : String) : SummaryRecord :=
  (summarize rows label).getD default

/-! ## Theorems -/

theorem parseAll_length {ms : List String} {cs : List (ℚ × ℚ × ℚ)}
    (h : parseAll ms = some cs) : cs.length = ms.length := by
  induction ms generalizing cs with
  | nil =>
    simp only [parseAll, Option.some.injEq] at h
    subst h; rfl
  | cons m ms ih =>
    simp only [parseAll] at h
    cases hp : parseLine m <;> rw [hp] at h
    · exact absurd h (by simp)
    · cases ha : parseAll ms <;> rw [ha] at h
      · exact absurd h (by simp)
      · simp only [Option.some.injEq] at h
        subst h
        simp [ih ha]

theorem mkData_length (test : String) (coords : List (ℚ × ℚ × ℚ)) :
    (mkData test coords).length = coords.length := by
  simp [mkData]

theorem collect_data_eq {startTime : ℚ} {raw : List Entry} {test : String}
    {coords : List (ℚ × ℚ × ℚ)} (dfs : Bool)
    (h : parseAll (matchingMsgs startTime raw) = some coords) :
    collect_data startTime raw dfs test =
      if (mkData test coords).length = 0 then .exitNoSamples
      else if dfs then .ok ((mkData test coords).drop 1)
      else .ok (mkData test coords) := by
  unfold collect_data
  rw [h]

/-- C1 (amended): for every burst whose matching lines all parse, the call
exits via `sys.exit(1)` (`NoSamplesError`) iff the number of raw matching
measurement lines is zero — the emptiness check runs before the discard — and
every burst that is returned with `discard_first_sample = true` has exactly
`max(0, raw_matching_lines - 1)` samples (truncated subtraction on `Nat`).
In particular a burst with exactly one raw matching line returns an empty
sample list instead of exiting. -/
theorem collect_data_burst_length (startTime : ℚ) (raw : List Entry) (test : String)
    (coords : List (ℚ × ℚ × ℚ))
    (h : parseAll (matchingMsgs startTime raw) = some coords) :
    (collect_data startTime raw true test = .exitNoSamples ↔
      rawMatchingLines startTime raw = 0) ∧
    (∀ samples, collect_data startTime raw true test = .ok samples →
      samples.length = rawMatchingLines startTime raw - 1) := by
  have hlen : coords.length = rawMatchingLines startTime raw := parseAll_length h
  rw [collect_data_eq true h]
  constructor
  · constructor
    · intro hex
      by_cases h0 : (mkData test coords).length = 0
      · rw [mkData_length, hlen] at h0; exact h0
      · rw [if_neg h0] at hex
        exact absurd hex (by simp)
    · intro h0
      rw [if_pos (by rw [mkData_length, hlen]; exact h0)]
  · intro samples hs
    by_cases h0 : (mkData test coords).length = 0
    · rw [if_pos h0] at hs
      exact absurd hs (by simp)
    · rw [if_neg h0, if_pos rfl] at hs
      simp only [CollectResult.ok.injEq] at hs
      subst hs
      rw [List.length_drop, mkData_length, hlen]

/-- Witness for `collect_data_burst_length`: a burst of two matching
measurement lines returns one sample; its hypotheses are discharged at this
concrete input. -/
theorem collect_data_burst_length_witness :
    (collect_data 0 [⟨1, "// probe at 10,20,3"⟩, ⟨2, "// probe at 10,20,4"⟩] true "t"
        = .exitNoSamples ↔
      rawMatchingLines 0 [⟨1, "// probe at 10,20,3"⟩, ⟨2, "// probe at 10,20,4"⟩] = 0) ∧
    (∀ samples,
      collect_data 0 [⟨1, "// probe at 10,20,3"⟩, ⟨2, "// probe at 10,20,4"⟩] true "t"
          = .ok samples →
      samples.length
        = rawMatchingLines 0 [⟨1, "// probe at 10,20,3"⟩, ⟨2, "// probe at 10,20,4"⟩] - 1) :=
  collect_data_burst_length 0 [⟨1, "// probe at 10,20,3"⟩, ⟨2, "// probe at 10,20,4"⟩]
    "t" [(10, 20, 3), (10, 20, 4)] (by decide)

/-- Counterexample to C1 as stated: a burst with exactly one raw matching
measurement line does not fail; the emptiness check precedes the discard, so
the call returns an empty burst. -/
theorem collect_data_single_line_returns_empty :
    rawMatchingLines 0 [⟨1, "// probe at 10,20,3"⟩] = 1 ∧
    collect_data 0 [⟨1, "// probe at 10,20,3"⟩] true "t" = .ok [] := by
  constructor <;> decide

/-- C2 (amended): in every burst returned with `discard_first_sample = true`,
the `index` values of the samples form the contiguous range starting at 1
(`index` is assigned by `enumerate` over the matching lines before the first
row is popped, and the rows are not re-indexed afterwards). -/
theorem collect_data_index_range (startTime : ℚ) (raw : List Entry) (test : String)
    (coords : List (ℚ × ℚ × ℚ))
    (h : parseAll (matchingMsgs startTime raw) = some coords)
    (samples : List Sample)
    (hs : collect_data startTime raw true test = .ok samples) :
    samples.map Sample.index = List.range' 1 samples.length := by
  rw [collect_data_eq true h] at hs
  by_cases h0 : (mkData test coords).length = 0
  · rw [if_pos h0] at hs
    exact absurd hs (by simp)
  · rw [if_neg h0, if_pos rfl] at hs
    simp only [CollectResult.ok.injEq] at hs
    subst hs
    cases coords with
    | nil => simp [mkData] at h0
    | cons c cs =>
      simp only [mkData, List.enum_cons, List.map_cons, List.drop_succ_cons,
        List.drop_zero, List.map_map, List.length_map]
      have : (Sample.index ∘ fun p : Nat × ℚ × ℚ × ℚ =>
          Sample.mk test p.1 p.2.1 p.2.2.1 p.2.2.2) = Prod.fst := rfl
      rw [this, List.enumFrom_map_fst, List.enumFrom_length]

/-- Witness for `collect_data_index_range`: the one sample surviving a
two-line burst carries index 1. -/
theorem collect_data_index_range_witness :
    (collect_data 0 [⟨1, "// probe at 10,20,3"⟩, ⟨2, "// probe at 10,20,4"⟩] true "t").samplesD.map
        Sample.index
      = List.range' 1
          (collect_data 0 [⟨1, "// probe at 10,20,3"⟩, ⟨2, "// probe at 10,20,4"⟩] true
              "t").samplesD.length :=
  collect_data_index_range 0 [⟨1, "// probe at 10,20,3"⟩, ⟨2, "// probe at 10,20,4"⟩] "t"
    [(10, 20, 3), (10, 20, 4)] (by decide) _ (by decide)

/-- Counterexample to C2 as stated: after the transient discard the surviving
sample of a two-line burst has `index = 1`, so the indices of the returned
burst are not a contiguous range starting at 0. -/
theorem collect_data_index_starts_at_one :
    (collect_data 0 [⟨1, "// probe at 10,20,3"⟩, ⟨2, "// probe at 10,20,4"⟩] true
          "t").samplesD.map Sample.index = [1] ∧
    [1] ≠ List.range 1 := by
  constructor <;> decide

theorem pyFloat_nonneg {s : String} {q : ℚ} (h : pyFloat s = some q) : 0 ≤ q := by
  unfold pyFloat at h
  split at h
  · split at h
    · split at h
      · exact absurd h (by simp)
      · simp only [Option.some.injEq] at h
        subst h
        exact Nat.cast_nonneg _
    · split at h
      · exact absurd h (by simp)
      · simp only [Option.some.injEq] at h
        subst h
        positivity
    · exact absurd h (by simp)
  · exact absurd h (by simp)

theorem pyFloats_nonneg {ts : List String} {qs : List ℚ}
    (h : pyFloats ts = some qs) : ∀ q ∈ qs, 0 ≤ q := by
  induction ts generalizing qs with
  | nil =>
    simp only [pyFloats, Option.some.injEq] at h
    subst h; simp
  | cons t ts ih =>
    simp only [pyFloats] at h
    cases hp : pyFloat t <;> rw [hp] at h
    · exact absurd h (by simp)
    · cases ha : pyFloats ts <;> rw [ha] at h
      · exact absurd h (by simp)
      · simp only [Option.some.injEq] at h
        subst h
        intro q hq
        rcases List.mem_cons.mp hq with hq | hq
        · subst hq; exact pyFloat_nonneg hp
        · exact ih ha q hq

theorem parseLine_nonneg {m : String} {x y z : ℚ}
    (h : parseLine m = some (x, y, z)) : 0 ≤ x ∧ 0 ≤ y ∧ 0 ≤ z := by
  unfold parseLine at h
  cases hp : pyFloats (findNums m) <;> rw [hp] at h
  · exact absurd h (by simp)
  · rename_i qs
    have hall := pyFloats_nonneg hp
    match qs, h with
    | [a, b, c], h =>
      simp only [Option.some.injEq, Prod.mk.injEq] at h
      obtain ⟨hx, hy, hz⟩ := h
      exact ⟨hx ▸ hall a (by simp), hy ▸ hall b (by simp), hz ▸ hall c (by simp)⟩

theorem parseAll_mem {ms : List String} {cs : List (ℚ × ℚ × ℚ)}
    (h : parseAll ms = some cs) : ∀ c ∈ cs, ∃ m, parseLine m = some c := by
  induction ms generalizing cs with
  | nil =>
    simp only [parseAll, Option.some.injEq] at h
    subst h; simp
  | cons m ms ih =>
    simp only [parseAll] at h
    cases hp : parseLine m <;> rw [hp] at h
    · exact absurd h (by simp)
    · cases ha : parseAll ms <;> rw [ha] at h
      · exact absurd h (by simp)
      · simp only [Option.some.injEq] at h
        subst h
        intro c hc
        rcases List.mem_cons.mp hc with hc | hc
        · subst hc; exact ⟨m, hp⟩
        · exact ih ha c hc

/-- C10: every sample of a returned burst has non-negative `x`, `y` and `z`:
the extraction pattern `[\d.]+` matches only unsigned decimal tokens, and
`float` of such a token is non-negative, so a sign character in a measurement
line is never reflected in the parsed sample. -/
theorem collect_data_samples_nonneg (startTime : ℚ) (raw : List Entry)
    (dfs : Bool) (test : String) (samples : List Sample)
    (hs : collect_data startTime raw dfs test = .ok samples) :
    ∀ s ∈ samples, 0 ≤ s.x ∧ 0 ≤ s.y ∧ 0 ≤ s.z := by
  cases hp : parseAll (matchingMsgs startTime raw) with
  | none =>
    unfold collect_data at hs
    rw [hp] at hs
    exact absurd hs (by simp)
  | some coords =>
    have hmem : ∀ s ∈ mkData test coords, 0 ≤ s.x ∧ 0 ≤ s.y ∧ 0 ≤ s.z := by
      intro s hsm
      simp only [mkData] at hsm
      obtain ⟨p, hpmem, hps⟩ := List.mem_map.mp hsm
      obtain ⟨m, hm⟩ := parseAll_mem hp p.2
        (by
          have h2 : p.2 ∈ coords.enum.map Prod.snd := List.mem_map_of_mem _ hpmem
          rwa [List.enum_map_snd] at h2)
      have hn := parseLine_nonneg
        (show parseLine m = some (p.2.1, p.2.2.1, p.2.2.2) by rw [hm])
      subst hps
      exact hn
    rw [collect_data_eq dfs hp] at hs
    by_cases h0 : (mkData test coords).length = 0
    · rw [if_pos h0] at hs
      exact absurd hs (by simp)
    · rw [if_neg h0] at hs
      cases dfs with
      | false =>
        simp only [Bool.false_eq_true, if_false, CollectResult.ok.injEq] at hs
        subst hs
        exact hmem
      | true =>
        simp only [if_true, CollectResult.ok.injEq] at hs
        subst hs
        exact fun s hmem' => hmem s (List.mem_of_mem_drop hmem')

/-- Witness for `collect_data_samples_nonneg` at a concrete two-line burst,
instantiated at the one sample the burst returns. -/
theorem collect_data_samples_nonneg_witness :
    0 ≤ (Sample.mk "t" 1 10 20 4).x ∧ 0 ≤ (Sample.mk "t" 1 10 20 4).y ∧
      0 ≤ (Sample.mk "t" 1 10 20 4).z :=
  collect_data_samples_nonneg 0 [⟨1, "// probe at 10,20,3"⟩, ⟨2, "// probe at 10,20,4"⟩]
    true "t" [Sample.mk "t" 1 10 20 4] (by decide) (Sample.mk "t" 1 10 20 4) (by decide)

theorem head?_drop_length_sub_one (l : List Entry) :
    (l.drop (l.length - 1)).head? = l.getLast? := by
  induction l with
  | nil => rfl
  | cons a l ih =>
    cases l with
    | nil => rfl
    | cons b l' =>
      have h1 : (a :: b :: l').length - 1 = (b :: l').length - 1 + 1 := by
        simp [List.length_cons]
      rw [h1, List.drop_succ_cons, List.getLast?_cons_cons]
      exact ih

/-- C7: the baseline timestamp is the one of the most recent single log
entry; after the command is issued the correlation reads the up-to-1000 most
recent entries and returns exactly those emitted strictly after the
baseline, as a subsequence of the window (original emission order
preserved). -/
theorem correlate_spec (logBefore logAfter : List Entry) (t0 : ℚ)
    (h : baselineTime logBefore = some t0) :
    logBefore.getLast?.map Entry.time = some t0 ∧
    (correlate t0 logAfter).Sublist (get_gcode_response 1000 logAfter) ∧
    ∀ e ∈ get_gcode_response 1000 logAfter,
      (e ∈ correlate t0 logAfter ↔ t0 < e.time) := by
  refine ⟨?_, List.filter_sublist _, ?_⟩
  · unfold baselineTime get_gcode_response at h
    rwa [head?_drop_length_sub_one] at h
  · intro e he
    constructor
    · intro hc
      simpa using (List.mem_filter.mp hc).2
    · intro ht
      exact List.mem_filter.mpr ⟨he, by simpa using ht⟩

/-- Witness for `correlate_spec` on a two-entry store: the entry at time 2
is newer than the baseline (time 1), the older one is excluded. -/
theorem correlate_spec_witness :
    ([Entry.mk 1 "a"] : List Entry).getLast?.map Entry.time = some 1 ∧
    (correlate 1 [⟨1, "a"⟩, ⟨2, "b"⟩]).Sublist (get_gcode_response 1000 [⟨1, "a"⟩, ⟨2, "b"⟩]) ∧
    ∀ e ∈ get_gcode_response 1000 [Entry.mk 1 "a", Entry.mk 2 "b"],
      (e ∈ correlate 1 [⟨1, "a"⟩, ⟨2, "b"⟩] ↔ 1 < e.time) :=
  correlate_spec [⟨1, "a"⟩] [⟨1, "a"⟩, ⟨2, "b"⟩] 1 (by decide)

/-- C9: with both mesh-bound strings parsed, `get_bed_corners` returns
exactly 4 points, each a parsed mesh-bound corner shifted by
`(-x_offset, -y_offset)`, in the fixed order
front-left-of-max-y, front-right-of-max-y, min-y-left, min-y-right
(`[(xmin, ymax), (xmax, ymax), (xmin, ymin), (xmax, ymin)]`); the function
is deterministic, so the order is identical on every call with the same
config. -/
theorem get_bed_corners_spec (mesh_min mesh_max : String) (xo yo : ℚ)
    (xmin0 ymin0 xmax0 ymax0 : ℚ)
    (hmin : parsePair mesh_min = some (xmin0, ymin0))
    (hmax : parsePair mesh_max = some (xmax0, ymax0))
    (corners : List (ℚ × ℚ))
    (h : get_bed_corners mesh_min mesh_max xo yo = some corners) :
    corners.length = 4 ∧
    corners =
      [(xmin0, ymax0), (xmax0, ymax0), (xmin0, ymin0), (xmax0, ymin0)].map
        (fun p => (p.1 - xo, p.2 - yo)) := by
  unfold get_bed_corners at h
  rw [hmin, hmax] at h
  simp only [Option.some.injEq] at h
  subst h
  exact ⟨rfl, rfl⟩

/-- Witness for `get_bed_corners_spec` at mesh bounds `"10, 20"`/`"300, 290"`
with offsets 0. -/
theorem get_bed_corners_spec_witness :
    ((get_bed_corners "10, 20" "300, 290" 0 0).getD []).length = 4 ∧
    (get_bed_corners "10, 20" "300, 290" 0 0).getD [] =
      [((10 : ℚ), (290 : ℚ)), (300, 290), (10, 20), (300, 20)].map
        (fun p => (p.1 - 0, p.2 - 0)) :=
  get_bed_corners_spec "10, 20" "300, 290" 0 0 10 20 300 290
    (by decide) (by decide) _ rfl

/-- C6 (amended): `random_loc` computes
`x = r * (xmax - xmin - margin) + margin` from a uniform draw `r ∈ [0, 1)`
(and likewise for `y`), so the point lies in
`[margin, xmax - xmin) × [margin, ymax - ymin)` — an interval anchored at
the margin and the axis width, not at `[xmin + margin, xmax - margin]`. -/
theorem random_loc_bounds (r1 r2 margin xmin xmax ymin ymax : ℚ)
    (h1 : 0 ≤ r1) (h1' : r1 < 1) (h2 : 0 ≤ r2) (h2' : r2 < 1)
    (hx : margin < xmax - xmin) (hy : margin < ymax - ymin) :
    margin ≤ (random_loc r1 r2 margin xmin xmax ymin ymax).1 ∧
    (random_loc r1 r2 margin xmin xmax ymin ymax).1 < xmax - xmin ∧
    margin ≤ (random_loc r1 r2 margin xmin xmax ymin ymax).2 ∧
    (random_loc r1 r2 margin xmin xmax ymin ymax).2 < ymax - ymin := by
  simp only [random_loc]
  have hX : (0 : ℚ) < xmax - xmin - margin := by linarith
  have hY : (0 : ℚ) < ymax - ymin - margin := by linarith
  have hx0 := mul_nonneg h1 hX.le
  have hy0 := mul_nonneg h2 hY.le
  have hx1 := mul_lt_of_lt_one_left hX h1'
  have hy1 := mul_lt_of_lt_one_left hY h2'
  refine ⟨by linarith, by linarith, by linarith, by linarith⟩

/-- Witness for `random_loc_bounds` at draws `1/2`, margin 50,
bounds `[0, 300]`. -/
theorem random_loc_bounds_witness :
    (50 : ℚ) ≤ (random_loc (1/2) (1/2) 50 0 300 0 300).1 ∧
    (random_loc (1/2) (1/2) 50 0 300 0 300).1 < 300 - 0 ∧
    (50 : ℚ) ≤ (random_loc (1/2) (1/2) 50 0 300 0 300).2 ∧
    (random_loc (1/2) (1/2) 50 0 300 0 300).2 < 300 - 0 :=
  random_loc_bounds (1/2) (1/2) 50 0 300 0 300 (by norm_num) (by norm_num)
    (by norm_num) (by norm_num) (by norm_num) (by norm_num)

/-- Counterexample to C6 as stated: with axis bounds `[100, 300]` and margin
50 the claim requires `x ∈ [150, 250]`, but the draw `r1 = 0` (a legal value
of `np.random.random()`) gives `x = 50 < xmin + margin`. -/
theorem random_loc_escapes_claimed_interval :
    ((0 : ℚ) ≤ 0 ∧ (0 : ℚ) < 1) ∧
    (random_loc 0 0 50 100 300 100 300).1 = 50 ∧
    ¬(100 + 50 ≤ (random_loc 0 0 50 100 300 100 300).1) := by
  refine ⟨⟨le_refl _, by norm_num⟩, ?_, ?_⟩ <;> norm_num [random_loc]

/-- C4 (amended): line 47's `DOCK_PROBE_UNLOCK` runs after a normal
completion of the `try` body and after a caught `KeyboardInterrupt`, but a
propagating transport error or the `sys.exit(1)` of the no-samples path
leaves `main` without the unlock being attempted; `sys.exit(c)` terminates
the process with status `c` (so the no-samples exit status 1 is non-zero). -/
theorem mainRun_unlock_policy (sent : List String) (c : Nat) :
    mainRun ⟨sent, none⟩ = (sent ++ ["DOCK_PROBE_UNLOCK"], none) ∧
    mainRun ⟨sent, some .keyboardInterrupt⟩ = (sent ++ ["DOCK_PROBE_UNLOCK"], none) ∧
    mainRun ⟨sent, some (.systemExit c)⟩ = (sent, some (.systemExit c)) ∧
    mainRun ⟨sent, some .transportError⟩ = (sent, some .transportError) ∧
    exitStatus (some (.systemExit c)) = c :=
  ⟨rfl, rfl, rfl, rfl, rfl⟩

/-- Counterexample to C4 as stated: on the fatal no-samples exit
(`sys.exit(1)`) and on a propagating transport error, `DOCK_PROBE_UNLOCK`
is never sent — the `except` clause at lines 45-46 only catches
`KeyboardInterrupt`, and line 47 is not in a `finally` block.  The
no-samples path does exit with non-zero status 1. -/
theorem mainRun_skips_unlock_on_fatal :
    "DOCK_PROBE_UNLOCK" ∉ (mainRun ⟨["G28"], some (.systemExit 1)⟩).1 ∧
    "DOCK_PROBE_UNLOCK" ∉ (mainRun ⟨["G28"], some .transportError⟩).1 ∧
    exitStatus (mainRun ⟨["G28"], some (.systemExit 1)⟩).2 = 1 := by
  refine ⟨?_, ?_, rfl⟩ <;> decide

theorem le_fst_of_mem_enumFrom {p : Nat × Sample} {l : List Sample} {n : Nat}
    (h : p ∈ l.enumFrom n) : n ≤ p.1 := by
  induction l generalizing n with
  | nil => cases h
  | cons a l ih =>
    rw [List.enumFrom_cons] at h
    rcases List.mem_cons.mp h with h | h
    · subst h; exact Nat.le_refl n
    · exact Nat.le_of_succ_le (ih h)

theorem pairwise_le_enumFrom (l : List Sample) (n : Nat) :
    (l.enumFrom n).Pairwise (fun a b => a.1 ≤ b.1) := by
  induction l generalizing n with
  | nil => exact List.Pairwise.nil
  | cons a l ih =>
    rw [List.enumFrom_cons]
    exact List.Pairwise.cons
      (fun p hp => Nat.le_of_succ_le (le_fst_of_mem_enumFrom hp)) (ih (n + 1))

/-- C3 (amended): the `test_routine` merge (line 62, `ignore_index=True` then
`sort_index`) and the `test_corners` merge (line 157, plain `concat`) return
the submission-order concatenation that preserves within-table order.  The
`test_repeatability` merge (line 119, `concat` keeping each table's row
index, then `sort_index`) still preserves each table's internal order (each
table is a subsequence of the result) and returns a permutation of the
concatenation, but the rows are ordered by within-table row position, so
tables are interleaved row-by-row rather than appended in submission
order. -/
theorem merge_order (tables : List (List Sample)) :
    mergeRoutine tables = tables.flatten ∧
    mergeCorners tables = tables.flatten ∧
    (mergeRepeatability tables).Perm tables.flatten ∧
    ∀ t ∈ tables, t.Sublist (mergeRepeatability tables) := by
  refine ⟨?_, rfl, ?_, ?_⟩
  · unfold mergeRoutine sortIndex
    rw [List.Sorted.insertionSort_eq (by
      rw [List.enum_eq_enumFrom]
      exact pairwise_le_enumFrom _ 0)]
    exact List.enum_map_snd _
  · unfold mergeRepeatability sortIndex
    have hperm := List.perm_insertionSort
      (fun a b : Nat × Sample => a.1 ≤ b.1) (concatKeepIndex tables)
    refine (hperm.map Prod.snd).trans ?_
    rw [show (concatKeepIndex tables).map Prod.snd = tables.flatten from ?_]
    unfold concatKeepIndex
    rw [List.map_flatten, List.map_map]
    congr 1
    conv_rhs => rw [← List.map_id tables]
    apply List.map_congr_left
    intro t _
    simp only [Function.comp_apply, id_eq]
    exact List.enum_map_snd t
  · intro t ht
    have henum : t.enum.Sublist (concatKeepIndex tables) :=
      List.sublist_flatten_of_mem (List.mem_map_of_mem List.enum ht)
    have hsorted : t.enum.Pairwise (fun a b : Nat × Sample => a.1 ≤ b.1) := by
      rw [List.enum_eq_enumFrom]
      exact pairwise_le_enumFrom t 0
    have hsub := List.sublist_insertionSort hsorted henum
    have := hsub.map Prod.snd
    rwa [List.enum_map_snd] at this

/-- Witness for `merge_order` on two one-sample tables, the table-membership
hypothesis of the last part discharged for the first table. -/
theorem merge_order_witness :
    mergeRoutine [[Sample.mk "a" 0 0 0 1], [Sample.mk "b" 0 0 0 2]] =
      [[Sample.mk "a" 0 0 0 1], [Sample.mk "b" 0 0 0 2]].flatten ∧
    mergeCorners [[Sample.mk "a" 0 0 0 1], [Sample.mk "b" 0 0 0 2]] =
      [[Sample.mk "a" 0 0 0 1], [Sample.mk "b" 0 0 0 2]].flatten ∧
    (mergeRepeatability [[Sample.mk "a" 0 0 0 1], [Sample.mk "b" 0 0 0 2]]).Perm
      [[Sample.mk "a" 0 0 0 1], [Sample.mk "b" 0 0 0 2]].flatten ∧
    [Sample.mk "a" 0 0 0 1].Sublist
      (mergeRepeatability [[Sample.mk "a" 0 0 0 1], [Sample.mk "b" 0 0 0 2]]) :=
  ⟨(merge_order _).1, (merge_order _).2.1, (merge_order _).2.2.1,
    (merge_order _).2.2.2 [Sample.mk "a" 0 0 0 1] (by decide)⟩

/-- Counterexample to C3 as stated: merging two two-sample tables in
`test_repeatability` interleaves them by row index instead of concatenating
them in submission order. -/
theorem mergeRepeatability_interleaves :
    mergeRepeatability
        [[Sample.mk "a" 0 0 0 1, Sample.mk "a" 1 0 0 2],
         [Sample.mk "b" 0 0 0 3, Sample.mk "b" 1 0 0 4]] =
      [Sample.mk "a" 0 0 0 1, Sample.mk "b" 0 0 0 3,
       Sample.mk "a" 1 0 0 2, Sample.mk "b" 1 0 0 4] ∧
    mergeRepeatability
        [[Sample.mk "a" 0 0 0 1, Sample.mk "a" 1 0 0 2],
         [Sample.mk "b" 0 0 0 3, Sample.mk "b" 1 0 0 4]] ≠
      [[Sample.mk "a" 0 0 0 1, Sample.mk "a" 1 0 0 2],
       [Sample.mk "b" 0 0 0 3, Sample.mk "b" 1 0 0 4]].flatten := by
  constructor <;> decide

theorem flatten_map_singleton {α β : Type} (l : List α) (f : α → β) :
    (l.map (fun a => [f a])).flatten = l.map f := by
  induction l with
  | nil => rfl
  | cons a l ih => simp [ih]

/-- C5: in every `test_repeatability(test_count, probe_count, ...)` run,
each trial `i < test_count` performs, in order, a move to that trial's
random perturbation point, a move back to bed center, and one burst
acquisition of `probe_count` requested samples labeled with the trial's
identity (`"{i+1:02d}: center {probe_count}samples"`); moreover the bursts
of the whole run are exactly one per trial, in trial order, each under its
own trial label.  (Between the center move and the burst the code also sends
an `M117` status and `test_probe` repeats the center move; neither disturbs
the claimed order.) -/
theorem test_repeatability_trial_structure (test_count probe_count : Nat)
    (force_dock : Bool) (rand : Nat → ℚ × ℚ) (center : ℚ × ℚ) :
    (∀ i, i < test_count →
      [Ev.moveTo (rand i).1 (rand i).2, Ev.moveTo center.1 center.2,
        Ev.burst probe_count (repeatLabel i probe_count)].Sublist
        (test_repeatabilityEv test_count probe_count force_dock rand center)) ∧
    (test_repeatabilityEv test_count probe_count force_dock rand center).filter
        isBurst =
      (List.range test_count).map
        (fun i => Ev.burst probe_count (repeatLabel i probe_count)) := by
  constructor
  · intro i hi
    have h1 : [Ev.moveTo (rand i).1 (rand i).2, Ev.moveTo center.1 center.2,
        Ev.burst probe_count (repeatLabel i probe_count)].Sublist
        (repeatTrialEv i test_count probe_count rand center) := by
      show List.Sublist _ [Ev.moveTo (rand i).1 (rand i).2,
        Ev.moveTo center.1 center.2,
        Ev.gcode ("M117 repeatability test " ++ toString (i + 1) ++ "/" ++
          toString test_count),
        Ev.moveTo center.1 center.2,
        Ev.burst probe_count (repeatLabel i probe_count)]
      exact ((((List.Sublist.refl _).cons _).cons _).cons₂ _).cons₂ _
    have hmem : repeatTrialEv i test_count probe_count rand center ∈
        (List.range test_count).map
          (fun j => repeatTrialEv j test_count probe_count rand center) :=
      List.mem_map_of_mem _ (List.mem_range.mpr hi)
    have h2 := List.sublist_flatten_of_mem hmem
    unfold test_repeatabilityEv
    exact h1.trans ((h2.trans (List.sublist_append_right _ _)).trans
      (List.sublist_append_left _ _))
  · unfold test_repeatabilityEv
    rw [List.filter_append, List.filter_append, List.filter_flatten,
      List.map_map]
    have hpre : List.filter isBurst
        (if force_dock then [] else [Ev.gcode "ATTACH_PROBE_LOCK"]) = [] := by
      cases force_dock <;> rfl
    have hsuf : List.filter isBurst
        (if force_dock then [] else [Ev.gcode "DOCK_PROBE_UNLOCK"]) = [] := by
      cases force_dock <;> rfl
    rw [hpre, hsuf, List.nil_append, List.append_nil]
    rw [show (List.filter isBurst ∘
        fun j => repeatTrialEv j test_count probe_count rand center) =
        (fun j => [Ev.burst probe_count (repeatLabel j probe_count)]) from
      funext (fun j => rfl)]
    exact flatten_map_singleton _ _

/-- Witness for `test_repeatability_trial_structure`: the per-trial ordering
at trial 0 of a one-trial run, and the burst sequence of that run. -/
theorem test_repeatability_trial_structure_witness :
    [Ev.moveTo 7 8, Ev.moveTo 2 3, Ev.burst 5 (repeatLabel 0 5)].Sublist
      (test_repeatabilityEv 1 5 false (fun _ => (7, 8)) (2, 3)) ∧
    (test_repeatabilityEv 1 5 false (fun _ => (7, 8)) (2, 3)).filter isBurst =
      (List.range 1).map (fun i => Ev.burst 5 (repeatLabel i 5)) :=
  ⟨(test_repeatability_trial_structure 1 5 false (fun _ => (7, 8)) (2, 3)).1 0
      (by decide),
    (test_repeatability_trial_structure 1 5 false (fun _ => (7, 8)) (2, 3)).2⟩

theorem foldl_min_le {zs : List ℚ} (z : ℚ) :
    ∀ q ∈ z :: zs, zs.foldl Min.min z ≤ q := by
  induction zs generalizing z with
  | nil =>
    intro q hq
    rw [List.mem_singleton.mp hq]
    exact le_refl _
  | cons a l ih =>
    intro q hq
    rw [List.foldl_cons]
    rcases List.mem_cons.mp hq with hq | hq
    · subst hq
      exact le_trans (ih (Min.min q a) _ (List.mem_cons_self _ _)) (min_le_left _ _)
    rcases List.mem_cons.mp hq with hq | hq
    · subst hq
      exact le_trans (ih (Min.min z q) _ (List.mem_cons_self _ _)) (min_le_right _ _)
    · exact ih (Min.min z a) q (List.mem_cons_of_mem _ hq)

theorem foldl_min_mem {zs : List ℚ} (z : ℚ) : zs.foldl Min.min z ∈ z :: zs := by
  induction zs generalizing z with
  | nil => exact List.mem_singleton.mpr rfl
  | cons a l ih =>
    rw [List.foldl_cons]
    rcases List.mem_cons.mp (ih (Min.min z a)) with h | h
    · rcases min_choice z a with hm | hm
      · rw [h, hm]; exact List.mem_cons_self _ _
      · rw [h, hm]; exact List.mem_cons_of_mem _ (List.mem_cons_self _ _)
    · exact List.mem_cons_of_mem _ (List.mem_cons_of_mem _ h)

theorem le_foldl_max {zs : List ℚ} (z : ℚ) :
    ∀ q ∈ z :: zs, q ≤ zs.foldl Max.max z := by
  induction zs generalizing z with
  | nil =>
    intro q hq
    rw [List.mem_singleton.mp hq]
    exact le_refl _
  | cons a l ih =>
    intro q hq
    rw [List.foldl_cons]
    rcases List.mem_cons.mp hq with hq | hq
    · subst hq
      exact le_trans (le_max_left _ _) (ih (Max.max q a) _ (List.mem_cons_self _ _))
    rcases List.mem_cons.mp hq with hq | hq
    · subst hq
      exact le_trans (le_max_right _ _) (ih (Max.max z q) _ (List.mem_cons_self _ _))
    · exact ih (Max.max z a) q (List.mem_cons_of_mem _ hq)

theorem foldl_max_mem {zs : List ℚ} (z : ℚ) : zs.foldl Max.max z ∈ z :: zs := by
  induction zs generalizing z with
  | nil => exact List.mem_singleton.mpr rfl
  | cons a l ih =>
    rw [List.foldl_cons]
    rcases List.mem_cons.mp (ih (Max.max z a)) with h | h
    · rcases max_choice z a with hm | hm
      · rw [h, hm]; exact List.mem_cons_self _ _
      · rw [h, hm]; exact List.mem_cons_of_mem _ (List.mem_cons_self _ _)
    · exact List.mem_cons_of_mem _ (List.mem_cons_of_mem _ h)

/-- C8: for every label with a non-empty group, `summarize` aggregates
exactly the `z` values carrying that label: `count` is the group size,
`first`/`last` are the group's first and last values in table order, `min`
and `max` are attained group elements bounding the whole group, `mean` is
the group sum over the count, `range = max - min` and `drift = last - first`
exactly, and the variance (the square of the reported `std`, pandas
`ddof=1`) is the NaN sentinel `none` for a single-sample group — never
`some 0` — and `Σ (z - mean)² / (count - 1)` for groups of two or more. -/
theorem summarize_spec (rows : List Sample) (label : String) (rec : SummaryRecord)
    (h : summarize rows label = some rec) :
    rec.count = (groupZ label rows).length ∧
    (groupZ label rows).head? = some rec.first ∧
    (groupZ label rows).getLast? = some rec.last ∧
    rec.min ∈ groupZ label rows ∧ (∀ q ∈ groupZ label rows, rec.min ≤ q) ∧
    rec.max ∈ groupZ label rows ∧ (∀ q ∈ groupZ label rows, q ≤ rec.max) ∧
    rec.mean = (groupZ label rows).sum / (rec.count : ℚ) ∧
    rec.range = rec.max - rec.min ∧
    rec.drift = rec.last - rec.first ∧
    (rec.count = 1 → rec.var = none) ∧
    (2 ≤ rec.count →
      rec.var =
        some (((groupZ label rows).map (fun q => (q - rec.mean) ^ 2)).sum /
          ((rec.count : ℚ) - 1))) := by
  unfold summarize at h
  cases hg : groupZ label rows with
  | nil =>
    rw [hg] at h
    exact absurd h (by simp)
  | cons z zs =>
    rw [hg] at h
    simp only [Option.some.injEq] at h
    subst h
    refine ⟨rfl, rfl, (List.getLast?_eq_getLast _ _).symm ▸ rfl, ?_, ?_, ?_, ?_,
      rfl, rfl, rfl, ?_, ?_⟩
    · exact foldl_min_mem z
    · exact foldl_min_le z
    · exact foldl_max_mem z
    · exact le_foldl_max z
    · intro h1
      unfold sampleVar
      rw [if_pos (le_of_eq h1)]
    · intro h2
      have h2' : 2 ≤ (z :: zs).length := h2
      unfold sampleVar
      rw [if_neg (by omega)]

/-- Witness for `summarize_spec` on a two-sample table with label `"a"`. -/
theorem summarize_spec_witness :
    (summarizeD [Sample.mk "a" 0 0 0 1, Sample.mk "a" 1 0 0 3] "a").count =
      (groupZ "a" [Sample.mk "a" 0 0 0 1, Sample.mk "a" 1 0 0 3]).length ∧
    (groupZ "a" [Sample.mk "a" 0 0 0 1, Sample.mk "a" 1 0 0 3]).head? =
      some (summarizeD [Sample.mk "a" 0 0 0 1, Sample.mk "a" 1 0 0 3] "a").first ∧
    (groupZ "a" [Sample.mk "a" 0 0 0 1, Sample.mk "a" 1 0 0 3]).getLast? =
      some (summarizeD [Sample.mk "a" 0 0 0 1, Sample.mk "a" 1 0 0 3] "a").last ∧
    (summarizeD [Sample.mk "a" 0 0 0 1, Sample.mk "a" 1 0 0 3] "a").min ∈
      groupZ "a" [Sample.mk "a" 0 0 0 1, Sample.mk "a" 1 0 0 3] ∧
    (∀ q ∈ groupZ "a" [Sample.mk "a" 0 0 0 1, Sample.mk "a" 1 0 0 3],
      (summarizeD [Sample.mk "a" 0 0 0 1, Sample.mk "a" 1 0 0 3] "a").min ≤ q) ∧
    (summarizeD [Sample.mk "a" 0 0 0 1, Sample.mk "a" 1 0 0 3] "a").max ∈
      groupZ "a" [Sample.mk "a" 0 0 0 1, Sample.mk "a" 1 0 0 3] ∧
    (∀ q ∈ groupZ "a" [Sample.mk "a" 0 0 0 1, Sample.mk "a" 1 0 0 3],
      q ≤ (summarizeD [Sample.mk "a" 0 0 0 1, Sample.mk "a" 1 0 0 3] "a").max) ∧
    (summarizeD [Sample.mk "a" 0 0 0 1, Sample.mk "a" 1 0 0 3] "a").mean =
      (groupZ "a" [Sample.mk "a" 0 0 0 1, Sample.mk "a" 1 0 0 3]).sum /
        ((summarizeD [Sample.mk "a" 0 0 0 1, Sample.mk "a" 1 0 0 3] "a").count : ℚ) ∧
    (summarizeD [Sample.mk "a" 0 0 0 1, Sample.mk "a" 1 0 0 3] "a").range =
      (summarizeD [Sample.mk "a" 0 0 0 1, Sample.mk "a" 1 0 0 3] "a").max -
        (summarizeD [Sample.mk "a" 0 0 0 1, Sample.mk "a" 1 0 0 3] "a").min ∧
    (summarizeD [Sample.mk "a" 0 0 0 1, Sample.mk "a" 1 0 0 3] "a").drift =
      (summarizeD [Sample.mk "a" 0 0 0 1, Sample.mk "a" 1 0 0 3] "a").last -
        (summarizeD [Sample.mk "a" 0 0 0 1, Sample.mk "a" 1 0 0 3] "a").first ∧
    ((summarizeD [Sample.mk "a" 0 0 0 1, Sample.mk "a" 1 0 0 3] "a").count = 1 →
      (summarizeD [Sample.mk "a" 0 0 0 1, Sample.mk "a" 1 0 0 3] "a").var = none) ∧
    (2 ≤ (summarizeD [Sample.mk "a" 0 0 0 1, Sample.mk "a" 1 0 0 3] "a").count →
      (summarizeD [Sample.mk "a" 0 0 0 1, Sample.mk "a" 1 0 0 3] "a").var =
        some (((groupZ "a" [Sample.mk "a" 0 0 0 1, Sample.mk "a" 1 0 0 3]).map
            (fun q =>
              (q - (summarizeD [Sample.mk "a" 0 0 0 1, Sample.mk "a" 1 0 0 3] "a").mean) ^
                2)).sum /
          (((summarizeD [Sample.mk "a" 0 0 0 1, Sample.mk "a" 1 0 0 3] "a").count : ℚ) -
            1))) :=
  summarize_spec [Sample.mk "a" 0 0 0 1, Sample.mk "a" 1 0 0 3] "a"
    (summarizeD [Sample.mk "a" 0 0 0 1, Sample.mk "a" 1 0 0 3] "a") rfl

end ProbeAccuracy
